import Mathlib

/-!
# Shallow embedding of the log-engine watch module

This file embeds the core watcher/state engine of the repository
(`src/pkg/k3/watch/watch.go`) and proves/refutes the frozen claims about it.

Modelling conventions:
* Go `int`/`int64` values (offsets, Unix timestamps, config knobs) are `Int`.
* The global registry `GlobalFileStates : map[string]*FileState` is an
  association list with distinct keys (a Go map carries no key order, so any
  key-distinct association list represents it);
  `insertR`/`eraseR`/`lookupR` mirror Go map assignment, `delete` and indexing.
* Disk I/O on the snapshot file is modelled by the value written/read: the
  file content is a `DiskFile` (absent / zero-byte / malformed / JSON value).
  `encoding/json` is modelled at the JSON-value level: `Encode` maps the Go
  value to a `JValue` (struct fields in declaration order, map keys sorted),
  `Decode` maps a `JValue` back, returning the Go zero value for missing
  fields, an error for mismatched types, and — crucially — an `io.EOF` error
  when the input is empty.  Decoding into a non-nil Go map keeps existing
  entries (merge semantics).
* Fallible operations return `Except String`; a blocking operation that can
  never return (a deadlock on the non-reentrant `sync.Mutex`) is `none` in
  `Option`.
-/

/-- `FileState`, watch.go lines 19-25.  Timestamps are Unix seconds
(`int64`, 0 meaning "never"). -/
structure FileState where
  Path : String
  Offset : Int
  StartReadTime : Int
  LastReadTime : Int
  IndexName : String
deriving DecidableEq, Repr

/-- The in-memory registry `GlobalFileStates` (watch.go line 41), an
association list from path to `FileState`. -/
abbrev Registry := List (String × FileState)

/-- Go map indexing `GlobalFileStates[path]` (comma-ok form). -/
def lookupR : Registry → String → Option FileState
  | [], _ => none
  | (k', v) :: rest, k => if k = k' then some v else lookupR rest k

/-- Go map assignment `GlobalFileStates[path] = &FileState{...}`: replaces the
binding in place if the key is present, otherwise appends it. -/
def insertR : Registry → String → FileState → Registry
  | [], k, v => [(k, v)]
  | (k', v') :: rest, k, v =>
    if k = k' then (k, v) :: rest
    else (k', v') :: insertR rest k v

/-- Go `delete(GlobalFileStates, path)`. -/
def eraseR (r : Registry) (k : String) : Registry :=
  r.filter (fun kv => kv.1 != k)

/-- The key set of the registry (`k3.GetMapKeys`, watch.go lines 177-182). -/
def keysR (r : Registry) : List String := r.map Prod.fst

/-- `DefaultSyncInterval = 60` (watch.go line 52). -/
def DefaultSyncInterval : Int := 60

/-- `DefaultMaxReadCount = 200` (watch.go line 53). -/
def DefaultMaxReadCount : Int := 200

/-- The interval actually given to `time.NewTicker` by
`ClockSyncGlobalFileStatesToDiskFile` (watch.go lines 462-471):
`if syncInterval < 0 || syncInterval > DefaultSyncInterval` the configured
value is replaced by the default.  Note the comparison is `< 0`, not `<= 0`. -/
def clockSyncInterval (syncInterval : Int) : Int :=
  if syncInterval < 0 ∨ syncInterval > DefaultSyncInterval then DefaultSyncInterval
  else syncInterval

/-- `ReadFileByOffset` (watch.go lines 352-386), the read dispatched on a
write event.  After the per-path gate (`processingMap.LoadOrStore`, line 362)
and the `maxReadCount` clamp (lines 376-378), the body of the read —
steps 3.1 "open the file", 3.2 "read from the GlobalFileState offset up to
maxReadCount times" and 3.3 "send the data to ELK" (lines 379-383) — consists
solely of TODO comments in the source: no file is opened, nothing is read and
the registry is never touched.  The function then removes the path from the
in-flight map (line 385) and returns.  The model takes the in-flight set and
the registry and returns both as left by the call; the semaphore
acquire/release (lines 356-359) balances out and is elided here (it is modelled
in the dispatch system below). -/
def ReadFileByOffset (cfgMaxReadCount : Int) (inflight : List String)
    (path : String) (r : Registry) : List String × Registry :=
  if path ∈ inflight then
    -- LoadOrStore found the path: skip, release the slot, return.
    (inflight, r)
  else
    let maxReadCount :=
      if cfgMaxReadCount < 0 ∨ cfgMaxReadCount > DefaultMaxReadCount then DefaultMaxReadCount
      else cfgMaxReadCount
    let inflightDuring := path :: inflight
    let _ := maxReadCount
    -- 3.1 / 3.2 / 3.3 are TODO comments in the source: no reads, no registry
    -- update.  3.4: processingMap.Delete(event.Name).
    (inflightDuring.erase path, r)

/-- `freshFileState p idx` is the record `{Path: p, Offset: 0,
StartReadTime: 0, LastReadTime: 0, IndexName: idx}` inserted by the scanner
(watch.go lines 199-205) and by `createEvent` (lines 434-440). -/
def freshFileState (path indexName : String) : FileState :=
  ⟨path, 0, 0, 0, indexName⟩

/-- Registry effect of `createEvent` (watch.go lines 413-444): on a stat
error, log and return; for a directory, only the watcher is touched; for a
file, the entry is overwritten unconditionally with a fresh zero state. -/
def createEvent (indexName path : String) (isDir : Except String Bool)
    (r : Registry) : Registry :=
  match isDir with
  | .error _ => r
  | .ok true => r
  | .ok false => insertR r path (freshFileState path indexName)

/-- Registry effect of `removeEvent` (watch.go lines 447-456). -/
def removeEvent (path : String) (r : Registry) : Registry :=
  eraseR r path

/-- Registry effect of `writeEvent` (watch.go lines 389-410): insert a fresh
entry with both timestamps `now` only when the path is absent.  (The snapshot
save and the mutex it deadlocks on are modelled separately in `writeEvent`
below; the map insert at line 394 happens before that save is attempted.) -/
def writeEventRegistry (now : Int) (indexName path : String) (r : Registry) :
    Registry :=
  if (lookupR r path).isSome then r
  else insertR r path ⟨path, 0, now, now, indexName⟩

/-- JSON values: the abstraction of what `encoding/json` writes to and reads
from the snapshot file. -/
inductive JValue where
  | jnull
  | jbool (b : Bool)
  | jint (n : Int)
  | jstr (s : String)
  | jarr (elems : List JValue)
  | jobj (fields : List (String × JValue))

/-- Content of the snapshot file (`state/core.json`): missing, a zero-byte
file (as created by `Run`, watch.go line 519, on a cold start), bytes that do
not parse as JSON, or a JSON value. -/
inductive DiskFile where
  | absent
  | empty
  | malformed
  | json (j : JValue)

/-- Go's `json.Encoder.Encode` on a `*FileState`: an object whose fields are
the struct fields in declaration order (there are no json tags on `FileState`,
so the keys are the Go field names). -/
def encodeFileState (v : FileState) : JValue :=
  .jobj [("Path", .jstr v.Path), ("Offset", .jint v.Offset),
         ("StartReadTime", .jint v.StartReadTime),
         ("LastReadTime", .jint v.LastReadTime),
         ("IndexName", .jstr v.IndexName)]

/-- Go's `json.Encoder.Encode` on `map[string]*FileState`: an object keyed by
path with the encoded states as values, one member per entry.  (Go emits map
keys in sorted order; the member order of a JSON object carries no information
for the decoded map, so the model writes the entries in list order.) -/
def encodeRegistry (r : Registry) : JValue :=
  .jobj (r.map (fun kv => (kv.1, encodeFileState kv.2)))

/-- Field lookup inside a decoded JSON object. -/
def jField (fields : List (String × JValue)) (k : String) : Option JValue :=
  (fields.find? (fun kv => kv.1 == k)).map (fun kv => kv.2)

/-- Decoding a JSON field into a Go `string`: absent fields keep the zero
value, a non-string value is an `UnmarshalTypeError`. -/
def jAsStr : Option JValue → Except String String
  | none => .ok ""
  | some (.jstr s) => .ok s
  | some _ => .error "json: cannot unmarshal value into field of type string"

/-- Decoding a JSON field into a Go `int64`: absent fields keep the zero
value, a non-number value is an `UnmarshalTypeError`. -/
def jAsInt : Option JValue → Except String Int
  | none => .ok 0
  | some (.jint n) => .ok n
  | some _ => .error "json: cannot unmarshal value into field of type int64"

/-- Go's `json.Decoder.Decode` into a `*FileState`: object fields are matched
to struct fields by name, unknown fields are ignored, missing fields keep the
zero value. -/
def decodeFileState : JValue → Except String FileState
  | .jobj fields => do
    let path ← jAsStr (jField fields "Path")
    let offset ← jAsInt (jField fields "Offset")
    let startReadTime ← jAsInt (jField fields "StartReadTime")
    let lastReadTime ← jAsInt (jField fields "LastReadTime")
    let indexName ← jAsStr (jField fields "IndexName")
    .ok ⟨path, offset, startReadTime, lastReadTime, indexName⟩
  | _ => .error "json: cannot unmarshal value into Go value of type watch.FileState"

/-- Decoding one member of the snapshot object into the registry: the value
is decoded as a `FileState` and stored under the member's key; an
undecodable member aborts the whole `Decode`. -/
def decodeMember (acc : Registry) (kv : String × JValue) : Except String Registry :=
  match decodeFileState kv.2 with
  | .error e => .error e
  | .ok fs => .ok (insertR acc kv.1 fs)

/-- Go's `json.Decoder.Decode` into the non-nil map `GlobalFileStates`:
the JSON value must be an object; each member is decoded and stored under its
key.  Decode reuses the existing map, keeping entries whose keys do not occur
in the JSON (merge semantics). -/
def decodeRegistryInto (r : Registry) : JValue → Except String Registry
  | .jobj fields => fields.foldlM decodeMember r
  | _ => .error "json: cannot unmarshal value into Go value of type map"

/-- `LoadDiskFileToGlobalFileStates` (watch.go lines 114-138): open the state
file with `os.O_RDWR` (no create: a missing file is an open error) and decode
it into the registry.  `json.Decoder.Decode` returns `io.EOF` on an empty
file, and the function treats every non-nil decode error as fatal, so a
zero-byte state file is an error. -/
def LoadDiskFileToGlobalFileStates (r : Registry) : DiskFile → Except String Registry
  | .absent => .error "[LoadDiskFileToGlobalFileStates] open state file failed"
  | .empty => .error "[LoadDiskFileToGlobalFileStates] json decode failed: EOF"
  | .malformed => .error "[LoadDiskFileToGlobalFileStates] json decode failed: invalid character"
  | .json j =>
    match decodeRegistryInto r j with
    | .error e => .error ("[LoadDiskFileToGlobalFileStates] json decode failed: " ++ e)
    | .ok r2 => .ok r2

/-- `SaveGlobalFileStatesToDiskFile` (watch.go lines 141-165): truncate the
state file and write the JSON encoding of the registry.  The write itself is
modelled as returning the new file content. -/
def SaveGlobalFileStatesToDiskFile (r : Registry) : DiskFile :=
  DiskFile.json (encodeRegistry r)

/-- Steps 2 / 2.1 of `Run` (watch.go lines 515-527): if the state file does
not exist, create it empty (`os.OpenFile(..., os.O_CREATE, ...)`), then load
it into the (freshly initialised, empty) registry. -/
def runStartupLoad (disk : DiskFile) : Except String Registry :=
  let disk2 := match disk with
    | DiskFile.absent => DiskFile.empty
    | d => d
  match LoadDiskFileToGlobalFileStates [] disk2 with
  | .error e => .error ("[Run] load file state failed : " ++ e)
  | .ok r => .ok r

/-- Acquiring the non-reentrant `sync.Mutex` `GlobalFileStatesLock`: blocks
forever (`none`) if the lock is already held. -/
def lockAcquire (locked : Bool) : Option Bool :=
  if locked then none else some true

/-- `SaveGlobalFileStatesToDiskFile` including its mutex discipline (watch.go
lines 148-149): it first acquires `GlobalFileStatesLock` — deadlocking if the
caller already holds it — writes, and releases. -/
def SaveGlobalFileStatesToDiskFileLocked (locked : Bool) (r : Registry) :
    Option (DiskFile × Bool) :=
  match lockAcquire locked with
  | none => none
  | some _ => some (SaveGlobalFileStatesToDiskFile r, false)

/-- `writeEvent` (watch.go lines 389-410): if the path is absent, take
`GlobalFileStatesLock`, insert a fresh entry with both timestamps `now`, and
call `SaveGlobalFileStatesToDiskFile` — which tries to take the same
non-reentrant mutex — before unlocking; afterwards dispatch
`ReadFileByOffset` in the background.  Returns the registry and state-file
content after the handler, or `none` if the handler never returns. -/
def writeEvent (now : Int) (indexName path : String) (r : Registry)
    (file : DiskFile) : Option (Registry × DiskFile) :=
  if (lookupR r path).isSome then
    -- path already known: go straight to the background read (registry
    -- untouched by the dispatch itself; the read body is a stub).
    some (r, file)
  else
    match lockAcquire false with
    | none => none
    | some locked =>
      let r2 := insertR r path ⟨path, 0, now, now, indexName⟩
      match SaveGlobalFileStatesToDiskFileLocked locked r2 with
      | none => none     -- deadlock: the goroutine blocks holding the lock
      | some (file2, _) => some (r2, file2)

/-- The per-index enumeration loop of
`ScanLogFileToGlobalFileStatesAndSaveToDiskFile` (watch.go lines 186-191):
`k3.FetchDirectory` is called per configured directory and — note — an
enumeration error is skipped with `continue`. -/
def collectFiles (fetch : String → Except String (List String)) :
    List String → List String
  | [] => []
  | dir :: rest =>
    match fetch dir with
    | .error _ => collectFiles fetch rest      -- `continue`: the error is swallowed
    | .ok files => files ++ collectFiles fetch rest

/-- `totalFiles` (watch.go lines 184-192): the enumerated files grouped by
index name.  The configuration map is an ordered list of
`(indexName, directories)` pairs with distinct keys. -/
def totalFiles (fetch : String → Except String (List String))
    (directory : List (String × List String)) : List (String × List String) :=
  directory.map (fun p => (p.1, collectFiles fetch p.2))

/-- Inner loop of the ADD half (watch.go lines 197-207): for every enumerated
file of one index that is not among the registry's original keys, insert a
fresh zero state under that index. -/
def insertFiles (originalKeys : List String) (idx : String) :
    List String → Registry → Registry
  | [], r => r
  | f :: rest, r =>
    insertFiles originalKeys idx rest
      (if f ∈ originalKeys then r else insertR r f (freshFileState f idx))

/-- ADD half of the scanner (watch.go lines 195-208), over all indices. -/
def insertPhase (originalKeys : List String) :
    List (String × List String) → Registry → Registry
  | [], r => r
  | q :: rest, r => insertPhase originalKeys rest (insertFiles originalKeys q.1 q.2 r)

/-- DELETE half of the scanner (watch.go lines 211-215): every original
registry key that was not enumerated on disk is deleted. -/
def deletePhase (allFiles : List String) : List String → Registry → Registry
  | [], r => r
  | k :: rest, r => deletePhase allFiles rest (if k ∈ allFiles then r else eraseR r k)

/-- Registry effect of `ScanLogFileToGlobalFileStatesAndSaveToDiskFile`:
inserts (checked against the key list captured before any change) followed by
deletes (iterating that same original key list). -/
def scanRegistry (tf : List (String × List String)) (r : Registry) : Registry :=
  deletePhase ((tf.map Prod.snd).flatten) (keysR r) (insertPhase (keysR r) tf r)

/-- The union of all enumerated paths (`tempDiskFiles`, watch.go line 196). -/
def enumeratedFiles (fetch : String → Except String (List String))
    (directory : List (String × List String)) : List String :=
  ((totalFiles fetch directory).map Prod.snd).flatten

/-- `ScanLogFileToGlobalFileStatesAndSaveToDiskFile` (watch.go lines 168-222):
enumerate (skipping enumeration errors), add missing files, delete vanished
keys, then save.  The only error path left in the source is the save, whose
disk write is modelled as pure, so the function always returns `ok`. -/
def ScanLogFileToGlobalFileStatesAndSaveToDiskFile
    (fetch : String → Except String (List String))
    (directory : List (String × List String)) (r : Registry) :
    Except String (Registry × DiskFile) :=
  let r2 := scanRegistry (totalFiles fetch directory) r
  .ok (r2, SaveGlobalFileStatesToDiskFile r2)

/-- The filesystem events processed by `handlerEvent` (watch.go lines
333-349), with the out-of-band inputs each handler consumes: the stat result
for create, the clock for write, the enumeration for a reconciliation pass. -/
inductive WEvent where
  | write (indexName path : String) (now : Int)
  | create (indexName path : String) (isDir : Except String Bool)
  | removeOrRename (path : String)
  | reconcile (fetch : String → Except String (List String))
      (directory : List (String × List String))
  | readFile (cfgMaxReadCount : Int) (path : String)

/-- Registry transition for one processed event. -/
def stepWEvent (r : Registry) : WEvent → Registry
  | .write idx p now => writeEventRegistry now idx p r
  | .create idx p isDir => createEvent idx p isDir r
  | .removeOrRename p => removeEvent p r
  | .reconcile fetch dir => scanRegistry (totalFiles fetch dir) r
  | .readFile cfg p => (ReadFileByOffset cfg [] p r).2

/-- Registry after a sequence of processed events. -/
def stepWEvents (r : Registry) : List WEvent → Registry
  | [] => r
  | e :: es => stepWEvents (stepWEvent r e) es

/-- The offset currently recorded for `p`. -/
def offsetAt (r : Registry) (p : String) : Option Int :=
  (lookupR r p).map FileState.Offset

/-- An event is safe for the current registry unless it is a CREATE of a
regular file whose path is already present (the one transition that overwrites
a live entry with offset 0). -/
def safeStep (r : Registry) : WEvent → Bool
  | .create _ p (Except.ok false) => (lookupR r p).isNone
  | _ => true

/-- A trace contains no CREATE-file event for a then-present path. -/
def safeFrom (r : Registry) : List WEvent → Bool
  | [] => true
  | e :: es => safeStep r e && safeFrom (stepWEvent r e) es

/-- The path stays in the registry at every state along the trace. -/
def liveThrough (r : Registry) (p : String) : List WEvent → Bool
  | [] => true
  | e :: es =>
    (lookupR (stepWEvent r e) p).isSome && liveThrough (stepWEvent r e) p es

/-- Where a dispatched reader goroutine is inside `ReadFileByOffset`
(watch.go lines 352-386): not yet past the semaphore (`start`), holding a
semaphore slot before the per-path gate (`acquired`), past a successful
`LoadOrStore` and inside the read body (`body`), or returned (`exited`). -/
inductive RPhase where
  | start
  | acquired
  | body
  | exited
deriving DecidableEq, Repr

/-- One dispatched reader: the path of its write event and its phase. -/
structure Reader where
  path : String
  phase : RPhase
deriving DecidableEq, Repr

/-- Shared state of the read dispatcher: the occupied slots of
`processingSem` (capacity 100, watch.go line 84), the in-flight path set
`processingMap`, and the dispatched readers. -/
structure Dispatch where
  sem : Nat
  inflight : List String
  readers : List Reader
deriving Repr

/-- Atomic steps reader `i` can take, in source order: acquiring the
semaphore (line 356), the `processingMap.LoadOrStore` gate (line 362, one
atomic insert-if-absent that either skips out releasing the slot or enters
the body), and leaving the body (`processingMap.Delete` then the deferred
slot release, lines 385 and 357-359). -/
inductive DAct where
  | acquire (i : Nat)
  | gate (i : Nat)
  | finish (i : Nat)

/-- One interleaving step of the dispatcher; actions that are not enabled
leave the state unchanged. -/
def dstep (s : Dispatch) : DAct → Dispatch
  | .acquire i =>
    match s.readers[i]? with
    | some rd =>
      if rd.phase = RPhase.start ∧ s.sem < 100 then
        { s with sem := s.sem + 1,
                 readers := s.readers.set i { rd with phase := RPhase.acquired } }
      else s
    | none => s
  | .gate i =>
    match s.readers[i]? with
    | some rd =>
      if rd.phase = RPhase.acquired then
        if rd.path ∈ s.inflight then
          -- already being processed: log, release the slot, return
          { s with sem := s.sem - 1,
                   readers := s.readers.set i { rd with phase := RPhase.exited } }
        else
          { s with inflight := rd.path :: s.inflight,
                   readers := s.readers.set i { rd with phase := RPhase.body } }
      else s
    | none => s
  | .finish i =>
    match s.readers[i]? with
    | some rd =>
      if rd.phase = RPhase.body then
        { s with inflight := s.inflight.erase rd.path,
                 sem := s.sem - 1,
                 readers := s.readers.set i { rd with phase := RPhase.exited } }
      else s
    | none => s

/-- Run a list of interleaving actions. -/
def drun (s : Dispatch) (acts : List DAct) : Dispatch :=
  acts.foldl dstep s

/-- Initial dispatcher state: no slot taken, empty in-flight set, one
fresh reader per dispatched event. -/
def dinit (paths : List String) : Dispatch :=
  ⟨0, [], paths.map (fun p => ⟨p, RPhase.start⟩)⟩

/-- Number of readers currently executing the read body for path `p`. -/
def countBody (p : String) (rs : List Reader) : Nat :=
  rs.countP (fun rd => rd.phase == RPhase.body && rd.path == p)

/-- The dispatcher invariant: the in-flight set has no duplicates, and a path
is in flight exactly when exactly one reader is in the read body for it. -/
def DispatchInv (s : Dispatch) : Prop :=
  s.inflight.Nodup ∧
  ∀ p : String, countBody p s.readers = if p ∈ s.inflight then 1 else 0

/-! ## Claim theorems -/

/-- C1 (evidence of the code bug): a dispatched read (`ReadFileByOffset` on a
write event) for a path whose registry entry has offset 0 — with bytes
appended on disk and `max_read_count` configured to 1000 — returns with the
registry entry exactly as it was: nothing is read, the offset is not advanced
by the bytes read, and neither `last_read_time` nor `start_read_time` is set,
because the read body (steps 3.1-3.3 of the source) is an unimplemented
skeleton of TODO comments. -/
theorem c1_ReadFileByOffset_updates_nothing :
    ReadFileByOffset 1000 [] "/logs/a.log"
        [("/logs/a.log", ⟨"/logs/a.log", 0, 0, 0, "index_nginx"⟩)]
      = ([], [("/logs/a.log", ⟨"/logs/a.log", 0, 0, 0, "index_nginx"⟩)]) ∧
    lookupR (ReadFileByOffset 1000 [] "/logs/a.log"
        [("/logs/a.log", ⟨"/logs/a.log", 0, 0, 0, "index_nginx"⟩)]).2 "/logs/a.log"
      = some ⟨"/logs/a.log", 0, 0, 0, "index_nginx"⟩ :=
  ⟨rfl, rfl⟩

/-- C2 (evidence of the code bug): loading a zero-byte snapshot file fails
with the decode error `io.EOF` instead of yielding an empty registry, and
consequently a cold start — where `Run` creates the missing state file empty
and immediately loads it — always fails. -/
theorem c2_load_fails_on_empty_snapshot :
    LoadDiskFileToGlobalFileStates [] DiskFile.empty
      = .error "[LoadDiskFileToGlobalFileStates] json decode failed: EOF" ∧
    runStartupLoad DiskFile.absent
      = .error
        "[Run] load file state failed : [LoadDiskFileToGlobalFileStates] json decode failed: EOF" :=
  ⟨rfl, rfl⟩

/-- C3 (evidence of the code bug): when enumerating the single configured
directory fails, startup reconciliation does not abort — the scan loop skips
the error with `continue`, so the scanner returns `ok`, and the registry
entry under the unscannable directory is deleted as vanished (the saved
snapshot is the empty object). -/
theorem c3_scan_error_swallowed_and_entries_deleted :
    ScanLogFileToGlobalFileStatesAndSaveToDiskFile
        (fun d => if d = "/logs" then .error "permission denied" else .ok [])
        [("index_nginx", ["/logs"])]
        [("/logs/a.log", ⟨"/logs/a.log", 7, 0, 0, "index_nginx"⟩)]
      = .ok ([], DiskFile.json (JValue.jobj [])) :=
  rfl

/-- C4 (evidence of the code bug): a WRITE event for a path absent from the
registry never completes: `writeEvent` inserts the new entry while holding
`GlobalFileStatesLock` and then calls `SaveGlobalFileStatesToDiskFile`, which
acquires the same non-reentrant mutex — the handler deadlocks, the snapshot
is never written and the background read is never dispatched. -/
theorem c4_writeEvent_deadlocks_on_new_path :
    writeEvent 1700000000 "index_nginx" "/logs/a.log" [] DiskFile.empty = none :=
  rfl

/-- C9 (evidence of the code bug): a configured `sync_interval` of 0 —
the Go zero value, i.e. the value used when the key is absent from the
configuration — is outside `(0, 60]` but is not replaced by the default:
the clamp tests `< 0`, not `<= 0`, so the ticker is created with period 0
(on which `time.NewTicker` panics). -/
theorem c9_sync_interval_zero_not_replaced :
    clockSyncInterval 0 = 0 ∧ ¬ (0 < clockSyncInterval 0) :=
  ⟨rfl, by decide⟩

/-- C6 (counterexample): a CREATE event for a regular file whose path is
already in the registry overwrites the entry with a fresh state: with the
entry at offset 5 (and never deleted in between), processing the create
event leaves the same entry present with offset 0 — the recorded offset
decreased from 5 to 0. -/
theorem c6_create_event_resets_live_offset :
    offsetAt [("/logs/a.log", ⟨"/logs/a.log", 5, 10, 20, "index_nginx"⟩)]
        "/logs/a.log" = some 5 ∧
    stepWEvent [("/logs/a.log", ⟨"/logs/a.log", 5, 10, 20, "index_nginx"⟩)]
        (WEvent.create "index_nginx" "/logs/a.log" (Except.ok false))
      = [("/logs/a.log", ⟨"/logs/a.log", 0, 0, 0, "index_nginx"⟩)] ∧
    offsetAt
        (stepWEvent [("/logs/a.log", ⟨"/logs/a.log", 5, 10, 20, "index_nginx"⟩)]
          (WEvent.create "index_nginx" "/logs/a.log" (Except.ok false)))
        "/logs/a.log" = some 0 :=
  ⟨rfl, by decide, by decide⟩

/-! ## Registry lemmas -/

theorem lookupR_insertR_self (r : Registry) (k : String) (v : FileState) :
    lookupR (insertR r k v) k = some v := by
  induction r with
  | nil => simp [insertR, lookupR]
  | cons kv rest ih =>
    obtain ⟨k₁, v₁⟩ := kv
    by_cases h : k = k₁
    · simp [insertR, h, lookupR]
    · simp [insertR, h, lookupR, ih]

theorem lookupR_insertR_ne (r : Registry) (k k' : String) (v : FileState)
    (h : k' ≠ k) : lookupR (insertR r k v) k' = lookupR r k' := by
  induction r with
  | nil => simp [insertR, lookupR, h]
  | cons kv rest ih =>
    obtain ⟨k₁, v₁⟩ := kv
    by_cases hk : k = k₁
    · subst hk
      simp [insertR, lookupR, h]
    · by_cases hk' : k' = k₁ <;> simp [insertR, hk, lookupR, hk', ih]

theorem lookupR_eraseR_self (r : Registry) (k : String) :
    lookupR (eraseR r k) k = none := by
  induction r with
  | nil => rfl
  | cons kv rest ih =>
    obtain ⟨k₁, v₁⟩ := kv
    by_cases h : k₁ = k
    · simpa [eraseR, List.filter_cons, h] using ih
    · simp only [eraseR, List.filter_cons] at ih ⊢
      simp [h, lookupR, Ne.symm h, ih]

theorem lookupR_eraseR_ne (r : Registry) (k k' : String)
    (h : k' ≠ k) : lookupR (eraseR r k) k' = lookupR r k' := by
  induction r with
  | nil => rfl
  | cons kv rest ih =>
    obtain ⟨k₁, v₁⟩ := kv
    by_cases hk : k₁ = k
    · subst hk
      simp only [eraseR, List.filter_cons] at ih ⊢
      simp [lookupR, h, ih]
    · by_cases hk' : k' = k₁ <;>
        simp only [eraseR, List.filter_cons] at ih ⊢ <;>
        simp [hk, lookupR, hk', ih]

theorem lookupR_eraseR_none (r : Registry) (k p : String)
    (h : lookupR r p = none) : lookupR (eraseR r k) p = none := by
  by_cases hp : p = k
  · rw [hp]; exact lookupR_eraseR_self r k
  · rw [lookupR_eraseR_ne r k p hp]; exact h

theorem lookupR_none_iff_not_mem (r : Registry) (k : String) :
    lookupR r k = none ↔ k ∉ keysR r := by
  induction r with
  | nil => simp [lookupR, keysR]
  | cons kv rest ih =>
    obtain ⟨k₁, v₁⟩ := kv
    by_cases h : k = k₁ <;> simp [lookupR, keysR, h, ih]

theorem lookupR_isSome_iff_mem (r : Registry) (k : String) :
    (lookupR r k).isSome = true ↔ k ∈ keysR r := by
  rw [Option.isSome_iff_ne_none]
  rw [ne_eq, lookupR_none_iff_not_mem]
  exact not_not

theorem insertR_append (r : Registry) (k : String) (v : FileState)
    (h : k ∉ keysR r) : insertR r k v = r ++ [(k, v)] := by
  induction r with
  | nil => rfl
  | cons kv rest ih =>
    obtain ⟨k₁, v₁⟩ := kv
    simp only [keysR, List.map_cons, List.mem_cons, not_or] at h
    simp [insertR, h.1, ih (by simpa [keysR] using h.2)]

/-! ## Snapshot encode/decode lemmas -/

theorem decodeFileState_encodeFileState (v : FileState) :
    decodeFileState (encodeFileState v) = .ok v := by
  obtain ⟨p, o, s, l, i⟩ := v
  rfl

theorem decodeMember_encoded (acc : Registry) (k : String) (v : FileState) :
    decodeMember acc (k, encodeFileState v) = .ok (insertR acc k v) := by
  simp [decodeMember, decodeFileState_encodeFileState]

theorem foldlM_decodeMember_encoded (l : List (String × FileState)) :
    ∀ acc : Registry, (∀ kv ∈ l, kv.1 ∉ keysR acc) → (keysR l).Nodup →
    (l.map (fun kv => (kv.1, encodeFileState kv.2))).foldlM decodeMember acc
      = .ok (acc ++ l) := by
  induction l with
  | nil => intro acc _ _; simp; rfl
  | cons kv rest ih =>
    intro acc hdisj hnodup
    obtain ⟨k, v⟩ := kv
    have hnodup2 : k ∉ List.map Prod.fst rest ∧ (List.map Prod.fst rest).Nodup := by
      simpa only [keysR, List.map_cons, List.nodup_cons] using hnodup
    have hk : k ∉ keysR acc := hdisj (k, v) (List.mem_cons_self _ _)
    rw [List.map_cons, List.foldlM_cons, decodeMember_encoded, insertR_append acc k v hk]
    show (rest.map (fun kv => (kv.1, encodeFileState kv.2))).foldlM decodeMember
        (acc ++ [(k, v)]) = _
    have hdisj2 : ∀ kv ∈ rest, kv.1 ∉ keysR (acc ++ [(k, v)]) := by
      intro kv hkv
      simp only [keysR, List.map_append, List.mem_append, List.map_cons, List.map_nil,
        List.mem_singleton, not_or]
      refine ⟨hdisj kv (List.mem_cons_of_mem _ hkv), ?_⟩
      intro heq
      exact hnodup2.1 (heq ▸ (List.mem_map.mpr ⟨kv, hkv, rfl⟩))
    rw [ih (acc ++ [(k, v)]) hdisj2 hnodup2.2]
    simp

theorem decodeRegistryInto_encodeRegistry (r acc : Registry)
    (hdisj : ∀ kv ∈ r, kv.1 ∉ keysR acc) (hnodup : (keysR r).Nodup) :
    decodeRegistryInto acc (encodeRegistry r) = .ok (acc ++ r) := by
  show (r.map (fun kv => (kv.1, encodeFileState kv.2))).foldlM decodeMember acc = _
  exact foldlM_decodeMember_encoded r acc hdisj hnodup

theorem lookupR_foldlM_decodeMember_ne (fields : List (String × JValue)) :
    ∀ (r r2 : Registry) (p : String), (∀ kv ∈ fields, kv.1 ≠ p) →
    fields.foldlM decodeMember r = .ok r2 → lookupR r2 p = lookupR r p := by
  induction fields with
  | nil =>
    intro r r2 p _ h
    cases Except.ok.inj h
    rfl
  | cons kv rest ih =>
    intro r r2 p hp h
    rw [List.foldlM_cons] at h
    cases hd : decodeMember r kv with
    | error e =>
      rw [hd] at h
      exact Except.noConfusion h
    | ok acc2 =>
      rw [hd] at h
      have h3 : rest.foldlM decodeMember acc2 = .ok r2 := h
      have hacc : lookupR acc2 p = lookupR r p := by
        cases hfs : decodeFileState kv.2 with
        | error e => simp [decodeMember, hfs] at hd
        | ok fs =>
          simp only [decodeMember, hfs] at hd
          cases hd
          exact lookupR_insertR_ne r kv.1 p fs
            (fun hpk => hp kv (List.mem_cons_self _ _) hpk.symm)
      rw [ih acc2 r2 p (fun kv2 h2 => hp kv2 (List.mem_cons_of_mem _ h2)) h3, hacc]

/-- C8: for every registry R — its keys distinct, as the keys of a Go map
always are — saving R to the snapshot file with
`SaveGlobalFileStatesToDiskFile` and then loading that file with
`LoadDiskFileToGlobalFileStates` into an empty registry yields a registry
equal to R field-wise (`Path`, `Offset`, `StartReadTime`, `LastReadTime`,
`IndexName`); 0-valued timestamps are written and read back as the integer
zero. -/
theorem c8_snapshot_roundtrip (r : Registry) (hnodup : (keysR r).Nodup) :
    LoadDiskFileToGlobalFileStates [] (SaveGlobalFileStatesToDiskFile r) = .ok r := by
  have h := decodeRegistryInto_encodeRegistry r [] (by simp [keysR]) hnodup
  simp only [SaveGlobalFileStatesToDiskFile, LoadDiskFileToGlobalFileStates, h,
    List.nil_append]

/-- C8 witness: the round trip evaluated on a concrete two-entry registry,
one entry with a positive offset and live timestamps, one with offset 0 and
both timestamps 0. -/
theorem c8_snapshot_roundtrip_witness :
    (keysR [("/logs/a.log", ⟨"/logs/a.log", 18, 1700000000, 1700000100, "index_nginx"⟩),
            ("/logs/b.log", ⟨"/logs/b.log", 0, 0, 0, "index_api"⟩)]).Nodup ∧
    LoadDiskFileToGlobalFileStates []
        (SaveGlobalFileStatesToDiskFile
          [("/logs/a.log", ⟨"/logs/a.log", 18, 1700000000, 1700000100, "index_nginx"⟩),
           ("/logs/b.log", ⟨"/logs/b.log", 0, 0, 0, "index_api"⟩)])
      = .ok [("/logs/a.log", ⟨"/logs/a.log", 18, 1700000000, 1700000100, "index_nginx"⟩),
             ("/logs/b.log", ⟨"/logs/b.log", 0, 0, 0, "index_api"⟩)] :=
  ⟨by decide, c8_snapshot_roundtrip _ (by decide)⟩

/-- C10: `LoadDiskFileToGlobalFileStates` decodes the snapshot into the
existing registry without clearing it: every entry already present whose
path does not occur as a key of the snapshot object is still present and
unchanged after a successful load — load merges rather than replaces. -/
theorem c10_load_merges_without_clearing (r r2 : Registry)
    (fields : List (String × JValue)) (p : String)
    (hp : ∀ kv ∈ fields, kv.1 ≠ p)
    (h : LoadDiskFileToGlobalFileStates r (DiskFile.json (JValue.jobj fields)) = .ok r2) :
    lookupR r2 p = lookupR r p := by
  have h2 : fields.foldlM decodeMember r = .ok r2 := by
    cases hd : decodeRegistryInto r (JValue.jobj fields) with
    | error e =>
      rw [LoadDiskFileToGlobalFileStates, hd] at h
      exact Except.noConfusion h
    | ok r3 =>
      rw [LoadDiskFileToGlobalFileStates, hd] at h
      cases Except.ok.inj h
      exact hd
  exact lookupR_foldlM_decodeMember_ne fields r r2 p hp h2

/-- C10 witness: loading a snapshot holding only `/logs/b.log` into a
registry holding `/logs/a.log` leaves the entry for `/logs/a.log` present
and unchanged. -/
theorem c10_load_merges_witness :
    (∀ kv ∈ [("/logs/b.log", encodeFileState ⟨"/logs/b.log", 6, 0, 0, "index_api"⟩)],
      (kv : String × JValue).1 ≠ "/logs/a.log") ∧
    lookupR [("/logs/a.log", ⟨"/logs/a.log", 18, 3, 4, "index_nginx"⟩),
             ("/logs/b.log", ⟨"/logs/b.log", 6, 0, 0, "index_api"⟩)] "/logs/a.log"
      = lookupR [("/logs/a.log", ⟨"/logs/a.log", 18, 3, 4, "index_nginx"⟩)] "/logs/a.log" :=
  ⟨by decide,
   c10_load_merges_without_clearing
     [("/logs/a.log", ⟨"/logs/a.log", 18, 3, 4, "index_nginx"⟩)]
     [("/logs/a.log", ⟨"/logs/a.log", 18, 3, 4, "index_nginx"⟩),
      ("/logs/b.log", ⟨"/logs/b.log", 6, 0, 0, "index_api"⟩)]
     [("/logs/b.log", encodeFileState ⟨"/logs/b.log", 6, 0, 0, "index_api"⟩)]
     "/logs/a.log" (by decide) rfl⟩

/-! ## Scanner lemmas -/

theorem lookupR_insertFiles_not_mem (ok : List String) (idx : String)
    (files : List String) :
    ∀ (r : Registry) (p : String), p ∉ files →
    lookupR (insertFiles ok idx files r) p = lookupR r p := by
  induction files with
  | nil => intro r p _; rfl
  | cons f rest ih =>
    intro r p hp
    simp only [List.mem_cons, not_or] at hp
    rw [insertFiles, ih _ p hp.2]
    by_cases hf : f ∈ ok
    · rw [if_pos hf]
    · rw [if_neg hf, lookupR_insertR_ne r f p _ hp.1]

theorem lookupR_insertFiles_mem_ok (ok : List String) (idx : String)
    (files : List String) :
    ∀ (r : Registry) (p : String), p ∈ ok →
    lookupR (insertFiles ok idx files r) p = lookupR r p := by
  induction files with
  | nil => intro r p _; rfl
  | cons f rest ih =>
    intro r p hp
    rw [insertFiles, ih _ p hp]
    by_cases hf : f ∈ ok
    · rw [if_pos hf]
    · rw [if_neg hf, lookupR_insertR_ne r f p _ (fun he => hf (he ▸ hp))]

theorem lookupR_insertFiles_new (ok : List String) (idx : String)
    (files : List String) :
    ∀ (r : Registry) (p : String), p ∉ ok → p ∈ files →
    lookupR (insertFiles ok idx files r) p = some (freshFileState p idx) := by
  induction files with
  | nil => intro r p _ hp; cases hp
  | cons f rest ih =>
    intro r p hpo hp
    rw [insertFiles]
    by_cases hrest : p ∈ rest
    · exact ih _ p hpo hrest
    · have hf : f = p := by
        rcases List.mem_cons.mp hp with h | h
        · exact h.symm
        · exact absurd h hrest
      subst hf
      rw [if_neg hpo, lookupR_insertFiles_not_mem ok idx rest _ f hrest]
      exact lookupR_insertR_self r f _

theorem lookupR_insertPhase_mem_ok (ok : List String)
    (tf : List (String × List String)) :
    ∀ (r : Registry) (p : String), p ∈ ok →
    lookupR (insertPhase ok tf r) p = lookupR r p := by
  induction tf with
  | nil => intro r p _; rfl
  | cons q rest ih =>
    intro r p hp
    rw [insertPhase, ih _ p hp, lookupR_insertFiles_mem_ok ok q.1 q.2 r p hp]

theorem lookupR_insertPhase_not_enum (ok : List String)
    (tf : List (String × List String)) :
    ∀ (r : Registry) (p : String), (∀ q ∈ tf, p ∉ q.2) →
    lookupR (insertPhase ok tf r) p = lookupR r p := by
  induction tf with
  | nil => intro r p _; rfl
  | cons q rest ih =>
    intro r p hp
    rw [insertPhase, ih _ p (fun q2 h2 => hp q2 (List.mem_cons_of_mem _ h2)),
      lookupR_insertFiles_not_mem ok q.1 q.2 r p (hp q (List.mem_cons_self _ _))]

theorem lookupR_insertPhase_new (ok : List String)
    (tf : List (String × List String)) :
    ∀ (r : Registry) (p : String), p ∉ ok → (∃ q ∈ tf, p ∈ q.2) →
    ∃ idx, lookupR (insertPhase ok tf r) p = some (freshFileState p idx) ∧
      ∃ q ∈ tf, q.1 = idx ∧ p ∈ q.2 := by
  induction tf with
  | nil => intro r p _ hp; obtain ⟨q, hq, _⟩ := hp; cases hq
  | cons q rest ih =>
    intro r p hpo hp
    rw [insertPhase]
    by_cases hrest : ∃ q2 ∈ rest, p ∈ q2.2
    · obtain ⟨idx, hl, q2, hq2, hidx, hpq⟩ := ih _ p hpo hrest
      exact ⟨idx, hl, q2, List.mem_cons_of_mem _ hq2, hidx, hpq⟩
    · have hpq : p ∈ q.2 := by
        obtain ⟨q2, hq2, hpq2⟩ := hp
        rcases List.mem_cons.mp hq2 with h | h
        · exact h ▸ hpq2
        · exact absurd ⟨q2, h, hpq2⟩ hrest
      refine ⟨q.1, ?_, q, List.mem_cons_self _ _, rfl, hpq⟩
      have hnone : ∀ q2 ∈ rest, p ∉ q2.2 := by
        intro q2 h2 hm
        exact hrest ⟨q2, h2, hm⟩
      rw [lookupR_insertPhase_not_enum ok rest _ p hnone]
      exact lookupR_insertFiles_new ok q.1 q.2 r p hpo hpq

theorem lookupR_deletePhase_mem_all (allFiles : List String) (ks : List String) :
    ∀ (r : Registry) (p : String), p ∈ allFiles →
    lookupR (deletePhase allFiles ks r) p = lookupR r p := by
  induction ks with
  | nil => intro r p _; rfl
  | cons k rest ih =>
    intro r p hp
    rw [deletePhase, ih _ p hp]
    by_cases hk : k ∈ allFiles
    · rw [if_pos hk]
    · rw [if_neg hk, lookupR_eraseR_ne r k p (fun he => hk (he ▸ hp))]

theorem lookupR_deletePhase_none (allFiles : List String) (ks : List String) :
    ∀ (r : Registry) (p : String), lookupR r p = none →
    lookupR (deletePhase allFiles ks r) p = none := by
  induction ks with
  | nil => intro r p h; exact h
  | cons k rest ih =>
    intro r p h
    rw [deletePhase]
    by_cases hk : k ∈ allFiles
    · rw [if_pos hk]; exact ih _ p h
    · rw [if_neg hk]; exact ih _ p (lookupR_eraseR_none r k p h)

theorem lookupR_deletePhase_del (allFiles : List String) (ks : List String) :
    ∀ (r : Registry) (p : String), p ∈ ks → p ∉ allFiles →
    lookupR (deletePhase allFiles ks r) p = none := by
  induction ks with
  | nil => intro r p hp _; cases hp
  | cons k rest ih =>
    intro r p hp hpa
    rw [deletePhase]
    by_cases hk : k = p
    · subst hk
      rw [if_neg hpa]
      exact lookupR_deletePhase_none allFiles rest _ k (lookupR_eraseR_self r k)
    · have hp2 : p ∈ rest := by
        rcases List.mem_cons.mp hp with h | h
        · exact absurd h.symm hk
        · exact h
      by_cases hka : k ∈ allFiles
      · rw [if_pos hka]; exact ih _ p hp2 hpa
      · rw [if_neg hka]; exact ih _ p hp2 hpa

/-- C7: startup reconciliation first inserts — against the key list captured
before any change — a fresh `FileState` (offset 0, both timestamps 0) for
every enumerated on-disk path not already in the registry, then deletes every
original registry key not among the enumerated paths, then saves the result;
a path already present keeps its existing record untouched (its `IndexName`
included) whatever index it was enumerated under.  Stated for every path `p`
by its four cases: present-and-enumerated entries survive unchanged,
present-but-vanished entries are deleted, absent-but-enumerated paths get a
fresh record under an index they were enumerated for, and everything else
stays absent; the returned snapshot is the save of the final registry. -/
theorem c7_scan_inserts_then_deletes_existing_wins
    (fetch : String → Except String (List String))
    (directory : List (String × List String)) (r : Registry) (p : String) :
    ScanLogFileToGlobalFileStatesAndSaveToDiskFile fetch directory r
      = .ok (scanRegistry (totalFiles fetch directory) r,
             SaveGlobalFileStatesToDiskFile (scanRegistry (totalFiles fetch directory) r)) ∧
    (p ∈ keysR r → p ∈ enumeratedFiles fetch directory →
      lookupR (scanRegistry (totalFiles fetch directory) r) p = lookupR r p) ∧
    (p ∈ keysR r → p ∉ enumeratedFiles fetch directory →
      lookupR (scanRegistry (totalFiles fetch directory) r) p = none) ∧
    (p ∉ keysR r → p ∈ enumeratedFiles fetch directory →
      ∃ idx, lookupR (scanRegistry (totalFiles fetch directory) r) p
          = some (freshFileState p idx) ∧
        ∃ q ∈ totalFiles fetch directory, q.1 = idx ∧ p ∈ q.2) ∧
    (p ∉ keysR r → p ∉ enumeratedFiles fetch directory →
      lookupR (scanRegistry (totalFiles fetch directory) r) p = none) := by
  have henum : ∀ p2 : String,
      p2 ∈ enumeratedFiles fetch directory ↔
        ∃ q ∈ totalFiles fetch directory, p2 ∈ q.2 := by
    intro p2
    constructor
    · intro h
      have h2 : p2 ∈ ((totalFiles fetch directory).map Prod.snd).flatten := h
      obtain ⟨l, hl, hp⟩ := List.mem_flatten.mp h2
      obtain ⟨q, hq, rfl⟩ := List.mem_map.mp hl
      exact ⟨q, hq, hp⟩
    · rintro ⟨q, hq, hp⟩
      show p2 ∈ ((totalFiles fetch directory).map Prod.snd).flatten
      exact List.mem_flatten.mpr ⟨q.2, List.mem_map.mpr ⟨q, hq, rfl⟩, hp⟩
  refine ⟨rfl, ?_, ?_, ?_, ?_⟩
  · intro hk he
    have he2 : p ∈ ((totalFiles fetch directory).map Prod.snd).flatten := he
    rw [scanRegistry, lookupR_deletePhase_mem_all _ _ _ p he2,
      lookupR_insertPhase_mem_ok _ _ _ p hk]
  · intro hk he
    have he2 : p ∉ ((totalFiles fetch directory).map Prod.snd).flatten := he
    rw [scanRegistry]
    exact lookupR_deletePhase_del _ _ _ p hk he2
  · intro hk he
    have he2 : p ∈ ((totalFiles fetch directory).map Prod.snd).flatten := he
    obtain ⟨idx, hl, hq⟩ :=
      lookupR_insertPhase_new (keysR r) (totalFiles fetch directory) r p hk
        ((henum p).mp he)
    refine ⟨idx, ?_, hq⟩
    rw [scanRegistry, lookupR_deletePhase_mem_all _ _ _ p he2, hl]
  · intro hk he
    rw [scanRegistry]
    refine lookupR_deletePhase_none _ _ _ p ?_
    rw [lookupR_insertPhase_not_enum _ _ _ p ?_]
    · exact (lookupR_none_iff_not_mem r p).mpr hk
    · intro q hq hm
      exact he ((henum p).mpr ⟨q, hq, hm⟩)

/-- C7 witness: on a concrete configuration — `/logs` enumerated under
`index_nginx`, the registry already holding `/logs/a.log` under
`index_admin` — reconciliation keeps the existing record untouched,
`IndexName` included. -/
theorem c7_scan_witness :
    "/logs/a.log" ∈ keysR
        [("/logs/a.log", ⟨"/logs/a.log", 18, 3, 4, "index_admin"⟩),
         ("/logs/gone.log", ⟨"/logs/gone.log", 7, 0, 0, "index_admin"⟩)] ∧
    "/logs/a.log" ∈ enumeratedFiles
        (fun d => if d = "/logs" then Except.ok ["/logs/a.log", "/logs/new.log"]
                  else Except.error "permission denied")
        [("index_nginx", ["/logs"])] ∧
    lookupR
        (scanRegistry
          (totalFiles
            (fun d => if d = "/logs" then Except.ok ["/logs/a.log", "/logs/new.log"]
                      else Except.error "permission denied")
            [("index_nginx", ["/logs"])])
          [("/logs/a.log", ⟨"/logs/a.log", 18, 3, 4, "index_admin"⟩),
           ("/logs/gone.log", ⟨"/logs/gone.log", 7, 0, 0, "index_admin"⟩)])
        "/logs/a.log"
      = lookupR
          [("/logs/a.log", ⟨"/logs/a.log", 18, 3, 4, "index_admin"⟩),
           ("/logs/gone.log", ⟨"/logs/gone.log", 7, 0, 0, "index_admin"⟩)]
          "/logs/a.log" :=
  ⟨by decide, by decide,
   (c7_scan_inserts_then_deletes_existing_wins
      (fun d => if d = "/logs" then Except.ok ["/logs/a.log", "/logs/new.log"]
                else Except.error "permission denied")
      [("index_nginx", ["/logs"])]
      [("/logs/a.log", ⟨"/logs/a.log", 18, 3, 4, "index_admin"⟩),
       ("/logs/gone.log", ⟨"/logs/gone.log", 7, 0, 0, "index_admin"⟩)]
      "/logs/a.log").2.1 (by decide) (by decide)⟩

/-! ## Event-sequence lemmas -/

theorem ReadFileByOffset_registry_id (cfg : Int) (fl : List String)
    (p : String) (r : Registry) : (ReadFileByOffset cfg fl p r).2 = r := by
  rw [ReadFileByOffset]
  split
  · rfl
  · rfl

theorem lookupR_scanRegistry_cases (tf : List (String × List String))
    (r : Registry) (p : String) (hp : (lookupR r p).isSome = true) :
    lookupR (scanRegistry tf r) p = lookupR r p ∨
    lookupR (scanRegistry tf r) p = none := by
  have hk : p ∈ keysR r := (lookupR_isSome_iff_mem r p).mp hp
  by_cases he : p ∈ (tf.map Prod.snd).flatten
  · left
    rw [scanRegistry, lookupR_deletePhase_mem_all _ _ _ p he,
      lookupR_insertPhase_mem_ok _ _ _ p hk]
  · right
    rw [scanRegistry]
    exact lookupR_deletePhase_del _ _ _ p hk he

theorem offset_mono_step (r : Registry) (e : WEvent) (p : String)
    (hsafe : safeStep r e = true)
    (hpre : (lookupR r p).isSome = true)
    (hpost : (lookupR (stepWEvent r e) p).isSome = true) :
    offsetAt (stepWEvent r e) p = offsetAt r p := by
  cases e with
  | write idx q now =>
    show offsetAt (writeEventRegistry now idx q r) p = offsetAt r p
    rw [writeEventRegistry]
    split
    · rfl
    · next hq =>
      have hqp : p ≠ q := by
        intro he2
        exact hq (he2 ▸ hpre)
      simp only [offsetAt]
      rw [lookupR_insertR_ne r q p _ hqp]
  | create idx q isDir =>
    cases isDir with
    | error e2 => rfl
    | ok b =>
      cases b with
      | true => rfl
      | false =>
        have hq : (lookupR r q).isNone = true := hsafe
        have hqp : p ≠ q := by
          intro he2
          subst he2
          rw [Option.isNone_iff_eq_none] at hq
          rw [hq] at hpre
          exact Bool.noConfusion hpre
        show offsetAt (insertR r q (freshFileState q idx)) p = offsetAt r p
        simp only [offsetAt]
        rw [lookupR_insertR_ne r q p _ hqp]
  | removeOrRename q =>
    have hqp : p ≠ q := by
      intro he2
      subst he2
      rw [show stepWEvent r (WEvent.removeOrRename p) = eraseR r p from rfl,
        lookupR_eraseR_self] at hpost
      exact Bool.noConfusion hpost
    show offsetAt (eraseR r q) p = offsetAt r p
    simp only [offsetAt]
    rw [lookupR_eraseR_ne r q p hqp]
  | reconcile fetch dir =>
    rcases lookupR_scanRegistry_cases (totalFiles fetch dir) r p hpre with h | h
    · show offsetAt (scanRegistry (totalFiles fetch dir) r) p = offsetAt r p
      simp only [offsetAt]
      rw [h]
    · rw [show stepWEvent r (WEvent.reconcile fetch dir)
          = scanRegistry (totalFiles fetch dir) r from rfl, h] at hpost
      exact Bool.noConfusion hpost
  | readFile cfg q =>
    show offsetAt (ReadFileByOffset cfg [] q r).2 p = offsetAt r p
    rw [ReadFileByOffset_registry_id]

/-- C6 (amended): for every path, from the moment its registry entry exists
until the moment it is deleted, the recorded offset never decreases under any
sequence of processed events — write, create, remove/rename, reconciliation,
dispatched reads — PROVIDED the sequence contains no CREATE event for a
regular file whose path is present in the registry at that moment (such an
event overwrites the live entry with a fresh offset-0 state, the single
decreasing transition, exhibited by the counterexample). -/
theorem c6_offsets_monotone_amended (es : List WEvent) :
    ∀ (r : Registry) (p : String) (a b : Int),
    safeFrom r es = true → (lookupR r p).isSome = true →
    liveThrough r p es = true →
    offsetAt r p = some a → offsetAt (stepWEvents r es) p = some b → a ≤ b := by
  induction es with
  | nil =>
    intro r p a b _ _ _ ha hb
    rw [stepWEvents] at hb
    rw [ha] at hb
    exact le_of_eq (Option.some.inj hb)
  | cons e rest ih =>
    intro r p a b hsafe hpre hlive ha hb
    rw [safeFrom, Bool.and_eq_true] at hsafe
    rw [liveThrough, Bool.and_eq_true] at hlive
    have hstep := offset_mono_step r e p hsafe.1 hpre hlive.1
    rw [stepWEvents] at hb
    exact ih (stepWEvent r e) p a b hsafe.2 hlive.1 hlive.2
      (by rw [hstep]; exact ha) hb

/-- C6 witness for the amended theorem: a concrete safe trace — a write on
the live path, a remove of another path, a dispatched read, a reconciliation
that still enumerates the path — keeps the entry live and its offset moves
from 2 to 2, i.e. does not decrease. -/
theorem c6_offsets_monotone_witness :
    safeFrom [("/logs/a.log", ⟨"/logs/a.log", 2, 1, 1, "index_nginx"⟩)]
        [WEvent.write "index_nginx" "/logs/a.log" 99,
         WEvent.removeOrRename "/logs/b.log",
         WEvent.readFile 100 "/logs/a.log",
         WEvent.reconcile (fun _ => Except.ok ["/logs/a.log"])
           [("index_nginx", ["/logs"])]] = true ∧
    (lookupR [("/logs/a.log", ⟨"/logs/a.log", 2, 1, 1, "index_nginx"⟩)]
        "/logs/a.log").isSome = true ∧
    liveThrough [("/logs/a.log", ⟨"/logs/a.log", 2, 1, 1, "index_nginx"⟩)]
        "/logs/a.log"
        [WEvent.write "index_nginx" "/logs/a.log" 99,
         WEvent.removeOrRename "/logs/b.log",
         WEvent.readFile 100 "/logs/a.log",
         WEvent.reconcile (fun _ => Except.ok ["/logs/a.log"])
           [("index_nginx", ["/logs"])]] = true ∧
    offsetAt [("/logs/a.log", ⟨"/logs/a.log", 2, 1, 1, "index_nginx"⟩)]
        "/logs/a.log" = some 2 ∧
    offsetAt
        (stepWEvents [("/logs/a.log", ⟨"/logs/a.log", 2, 1, 1, "index_nginx"⟩)]
          [WEvent.write "index_nginx" "/logs/a.log" 99,
           WEvent.removeOrRename "/logs/b.log",
           WEvent.readFile 100 "/logs/a.log",
           WEvent.reconcile (fun _ => Except.ok ["/logs/a.log"])
             [("index_nginx", ["/logs"])]])
        "/logs/a.log" = some 2 ∧
    (2 : Int) ≤ 2 :=
  ⟨by decide, by decide, by decide, by decide, by decide,
   c6_offsets_monotone_amended
     [WEvent.write "index_nginx" "/logs/a.log" 99,
      WEvent.removeOrRename "/logs/b.log",
      WEvent.readFile 100 "/logs/a.log",
      WEvent.reconcile (fun _ => Except.ok ["/logs/a.log"])
        [("index_nginx", ["/logs"])]]
     [("/logs/a.log", ⟨"/logs/a.log", 2, 1, 1, "index_nginx"⟩)]
     "/logs/a.log" 2 2 (by decide) (by decide) (by decide) (by decide) (by decide)⟩

/-! ## Dispatcher lemmas -/

theorem countP_set_eq (f : Reader → Bool) :
    ∀ (rs : List Reader) (i : Nat) (a b : Reader), rs[i]? = some a →
    (rs.set i b).countP f + (if f a then 1 else 0)
      = rs.countP f + (if f b then 1 else 0) := by
  intro rs
  induction rs with
  | nil => intro i a b h; simp at h
  | cons x xs ih =>
    intro i a b h
    cases i with
    | zero =>
      rw [List.getElem?_cons_zero, Option.some.injEq] at h
      subst h
      rw [List.set_cons_zero, List.countP_cons, List.countP_cons]
      omega
    | succ n =>
      rw [List.getElem?_cons_succ] at h
      have h2 := ih n a b h
      rw [List.set_cons_succ, List.countP_cons, List.countP_cons]
      omega

theorem dinit_inv (paths : List String) : DispatchInv (dinit paths) := by
  constructor
  · exact List.nodup_nil
  · intro p
    show List.countP _ (paths.map fun q => Reader.mk q RPhase.start)
      = if p ∈ ([] : List String) then 1 else 0
    rw [if_neg (List.not_mem_nil p), List.countP_eq_zero]
    intro a ha
    obtain ⟨q, _, rfl⟩ := List.mem_map.mp ha
    simp

theorem countP_set_false_false (f : Reader → Bool) (rs : List Reader) (i : Nat)
    (a b : Reader) (h : rs[i]? = some a) (ha : f a = false) (hb : f b = false) :
    (rs.set i b).countP f = rs.countP f := by
  have h2 := countP_set_eq f rs i a b h
  rw [ha, hb] at h2
  simpa using h2

theorem countP_set_true_false (f : Reader → Bool) (rs : List Reader) (i : Nat)
    (a b : Reader) (h : rs[i]? = some a) (ha : f a = true) (hb : f b = false) :
    (rs.set i b).countP f + 1 = rs.countP f := by
  have h2 := countP_set_eq f rs i a b h
  rw [ha, hb] at h2
  simpa using h2

theorem countP_set_false_true (f : Reader → Bool) (rs : List Reader) (i : Nat)
    (a b : Reader) (h : rs[i]? = some a) (ha : f a = false) (hb : f b = true) :
    (rs.set i b).countP f = rs.countP f + 1 := by
  have h2 := countP_set_eq f rs i a b h
  rw [ha, hb] at h2
  simpa using h2

theorem dstep_inv (s : Dispatch) (a : DAct) (h : DispatchInv s) :
    DispatchInv (dstep s a) := by
  obtain ⟨hnodup, hcount⟩ := h
  cases a with
  | acquire i =>
    cases hr : s.readers[i]? with
    | none =>
      simp only [dstep, hr]
      exact ⟨hnodup, hcount⟩
    | some rd =>
      simp only [dstep, hr]
      split
      · next hcond =>
        refine ⟨hnodup, ?_⟩
        intro p
        show List.countP (fun r2 => r2.phase == RPhase.body && r2.path == p)
            (s.readers.set i { rd with phase := RPhase.acquired })
          = if p ∈ s.inflight then 1 else 0
        rw [countP_set_false_false _ s.readers i rd _ hr
          (by simp [hcond.1]) (by simp)]
        exact hcount p
      · exact ⟨hnodup, hcount⟩
  | gate i =>
    cases hr : s.readers[i]? with
    | none =>
      simp only [dstep, hr]
      exact ⟨hnodup, hcount⟩
    | some rd =>
      simp only [dstep, hr]
      split
      · next hacq =>
        split
        · next hmem =>
          refine ⟨hnodup, ?_⟩
          intro p
          show List.countP (fun r2 => r2.phase == RPhase.body && r2.path == p)
              (s.readers.set i { rd with phase := RPhase.exited })
            = if p ∈ s.inflight then 1 else 0
          rw [countP_set_false_false _ s.readers i rd _ hr
            (by simp [hacq]) (by simp)]
          exact hcount p
        · next hmem =>
          refine ⟨List.nodup_cons.mpr ⟨hmem, hnodup⟩, ?_⟩
          intro p
          by_cases hp : p = rd.path
          · subst hp
            show List.countP (fun r2 => r2.phase == RPhase.body && r2.path == rd.path)
                (s.readers.set i { rd with phase := RPhase.body })
              = if rd.path ∈ rd.path :: s.inflight then 1 else 0
            rw [countP_set_false_true _ s.readers i rd _ hr
              (by simp [hacq]) (by simp)]
            have hc := hcount rd.path
            rw [countBody, if_neg hmem] at hc
            rw [hc, if_pos (List.mem_cons_self _ _)]
          · have hne : rd.path ≠ p := fun he => hp he.symm
            show List.countP (fun r2 => r2.phase == RPhase.body && r2.path == p)
                (s.readers.set i { rd with phase := RPhase.body })
              = if p ∈ rd.path :: s.inflight then 1 else 0
            rw [countP_set_false_false _ s.readers i rd _ hr
              (by simp [hacq]) (by simp [hne])]
            by_cases hpi : p ∈ s.inflight
            · rw [if_pos (List.mem_cons_of_mem _ hpi)]
              have hc := hcount p
              rw [countBody, if_pos hpi] at hc
              exact hc
            · rw [if_neg (fun h2 => hpi ((List.mem_cons.mp h2).resolve_left hp))]
              have hc := hcount p
              rw [countBody, if_neg hpi] at hc
              exact hc
      · exact ⟨hnodup, hcount⟩
  | finish i =>
    cases hr : s.readers[i]? with
    | none =>
      simp only [dstep, hr]
      exact ⟨hnodup, hcount⟩
    | some rd =>
      simp only [dstep, hr]
      split
      · next hbody =>
        refine ⟨hnodup.erase rd.path, ?_⟩
        intro p
        by_cases hp : p = rd.path
        · subst hp
          have hftrue : (rd.phase == RPhase.body && rd.path == rd.path) = true := by
            simp [hbody]
          have hpos : 0 < s.readers.countP
              (fun r2 => r2.phase == RPhase.body && r2.path == rd.path) :=
            List.countP_pos_iff.mpr ⟨rd, List.getElem?_mem hr, hftrue⟩
          have hc := hcount rd.path
          rw [countBody] at hc
          have hpi : rd.path ∈ s.inflight := by
            by_contra hni
            rw [if_neg hni] at hc
            omega
          rw [if_pos hpi] at hc
          have hdec := countP_set_true_false
            (fun r2 => r2.phase == RPhase.body && r2.path == rd.path)
            s.readers i rd { rd with phase := RPhase.exited } hr hftrue (by simp)
          show List.countP (fun r2 => r2.phase == RPhase.body && r2.path == rd.path)
              (s.readers.set i { rd with phase := RPhase.exited })
            = if rd.path ∈ s.inflight.erase rd.path then 1 else 0
          rw [if_neg (hnodup.not_mem_erase)]
          omega
        · have hne : rd.path ≠ p := fun he => hp he.symm
          show List.countP (fun r2 => r2.phase == RPhase.body && r2.path == p)
              (s.readers.set i { rd with phase := RPhase.exited })
            = if p ∈ s.inflight.erase rd.path then 1 else 0
          rw [countP_set_false_false _ s.readers i rd _ hr
            (by simp [hne]) (by simp)]
          by_cases hpi : p ∈ s.inflight
          · rw [if_pos ((List.mem_erase_of_ne hp).mpr hpi)]
            have hc := hcount p
            rw [countBody, if_pos hpi] at hc
            exact hc
          · rw [if_neg (fun h2 => hpi ((List.mem_erase_of_ne hp).mp h2))]
            have hc := hcount p
            rw [countBody, if_neg hpi] at hc
            exact hc
      · exact ⟨hnodup, hcount⟩

theorem drun_inv (acts : List DAct) :
    ∀ s : Dispatch, DispatchInv s → DispatchInv (drun s acts) := by
  induction acts with
  | nil => intro s h; exact h
  | cons a rest ih =>
    intro s h
    show DispatchInv (drun (dstep s a) rest)
    exact ih (dstep s a) (dstep_inv s a h)

/-- C5: in every interleaving of dispatched readers — each one stepping
through semaphore acquisition, the atomic `LoadOrStore` per-path gate (a
reader that finds its path already in flight exits, releasing its semaphore
slot, without entering the read body) and the `Delete`-and-release exit —
at no point are two readers inside the read body for the same path: the
count of readers in the body for any path is at most 1, and equals 1 exactly
when the path is in the in-flight set (so a proceeding reader removes its
path on exit). -/
theorem c5_at_most_one_reader_per_path (paths : List String) (acts : List DAct)
    (p : String) :
    countBody p (drun (dinit paths) acts).readers ≤ 1 ∧
    (p ∈ (drun (dinit paths) acts).inflight ↔
      countBody p (drun (dinit paths) acts).readers = 1) := by
  obtain ⟨hnodup, hcount⟩ := drun_inv acts (dinit paths) (dinit_inv paths)
  have hc := hcount p
  constructor
  · rw [hc]
    split <;> omega
  · constructor
    · intro hm
      rw [hc, if_pos hm]
    · intro hco
      by_contra hm
      rw [hc, if_neg hm] at hco
      exact Nat.noConfusion hco
